import Mathlib

/-!
A shallow embedding of the column configuration engine of
`src/shared/src/containers/ProjectTreeTable/buildTreeTableColumns.tsx`:
the sort strategies used by the column builder (`withLoadingStateSort`,
`attribSort`) and the column settings store (`ColumnSettingsProvider`
with its direct setters, reconciling updaters, default-column
reconciliation and debounced sizing commit).

JavaScript conventions mirrored here:
- optional record fields become `Option`;
- a JavaScript comparator returns a number; we use `Int`;
- `Array.prototype.sort` is stable (ES2019), modelled by a stable
  insertion sort parameterised by the comparator;
- `Array.prototype.findIndex` returns `-1` when no element matches.
-/

namespace TreeTable

/-- A value stored in a table cell, as far as the sort strategies
inspect it: a string, a boolean, or the JavaScript `undefined`. -/
inductive CellValue where
  | str (s : String)
  | bool (b : Bool)
  | undef
deriving DecidableEq, Repr

/-- A row as seen by the sort strategies: the `original` data carries the
loading flag and the per-column cell values. -/
structure SortRow where
  isLoading : Bool
  values : List (String × CellValue)
deriving DecidableEq, Repr

/-- Modelled from the spec: `getCellValue` (from `utils/cellUtils`, not
included under `src/`) resolves the value of a row for a column id; a column
with no value yields `undefined`. -/
def getCellValue (row : SortRow) (columnId : String) : CellValue :=
  match row.values.lookup columnId with
  | some v => v
  | none => CellValue.undef

/-- One entry of the declared enum options of an attribute (`{value, label}`). -/
structure EnumOption where
  value : CellValue
deriving DecidableEq, Repr

/-- The slice of `AttributeData` the sort strategies read: the optional
ordered enum options and the value type. -/
structure AttributeData where
  enum : Option (List EnumOption) := none
  type : String := "string"
deriving DecidableEq, Repr

/-- JavaScript `Array.prototype.findIndex`: index of the first match,
`-1` when none matches. -/
def findIndexJS (p : α → Bool) (l : List α) : Int :=
  match l.findIdx? p with
  | some i => (i : Int)
  | none => -1

/-- A sorting strategy: compares two rows for a column id, returning a
number (`@tanstack/react-table` SortingFn shape). -/
def SortingFn : Type := SortRow → SortRow → String → Int

/-- The sort wrapper from lines 15-24: when the loading states of the rows
differ, the loading row is pushed to the bottom (returns `1` when `rowA`
is the loading one, `-1` when `rowB` is); otherwise the wrapped
comparator decides. -/
def withLoadingStateSort (sortFn : SortingFn) : SortingFn :=
  fun rowA rowB columnId =>
    if rowA.isLoading ≠ rowB.isLoading then
      if rowA.isLoading then 1 else -1
    else
      sortFn rowA rowB columnId

/-- The attribute sort strategy from lines 41-59.  The `datetime` and
`alphanumeric` comparators are `@tanstack/react-table` library functions
(external to this repository) and are taken as parameters; the enum and
boolean branches are embedded exactly.  In the enum branch the source
computes `indexA - indexB < 0 ? 1 : -1`. -/
def attribSort (datetime alphanumeric : SortingFn)
    (rowA rowB : SortRow) (columnId : String)
    (attrib : Option AttributeData) : Int :=
  let valueA := getCellValue rowA columnId
  let valueB := getCellValue rowB columnId
  match attrib with
  | some a =>
    match a.enum with
    | some e =>
      let indexA := findIndexJS (fun o => o.value == valueA) e
      let indexB := findIndexJS (fun o => o.value == valueB) e
      if indexA - indexB < 0 then 1 else -1
    | none =>
      if a.type = "datetime" then datetime rowA rowB columnId
      else if a.type = "boolean" then
        let boolA : Int := if valueA == CellValue.bool true then 1 else 0
        let boolB : Int := if valueB == CellValue.bool true then 1 else 0
        boolA - boolB
      else alphanumeric rowA rowB columnId
  | none => alphanumeric rowA rowB columnId

/-! ### A model of the stable JavaScript array sort

`Array.prototype.sort(cmp)` is stable: elements that compare equal keep
their original relative order.  We model it by a stable insertion sort:
an element is inserted before the first element it is not required to
follow (`cmp x y ≤ 0`), so it lands after every earlier element that
strictly precedes it and before every earlier element it ties with
coming from a later original position - matching the ECMAScript
stability guarantee for consistent comparators. -/

/-- Insert `x` before the first element `y` with `le x y`. -/
def insertStable (le : α → α → Bool) (x : α) : List α → List α
  | [] => [x]
  | y :: ys => if le x y then x :: y :: ys else y :: insertStable le x ys

/-- Stable sort modelling `Array.prototype.sort` with comparator `cmp`,
where `le x y` means `cmp x y ≤ 0`. -/
def jsStableSort (le : α → α → Bool) : List α → List α
  | [] => []
  | x :: xs => insertStable le x (jsStableSort le xs)

/-! ### The column settings store (ColumnSettingsProvider) -/

/-- Type `VisibilityState`: a JavaScript object mapping column id to boolean.
Modelled as an association list; `visibility[col]` is the `lookup`. -/
abbrev VisibilityState : Type := List (String × Bool)

/-- Reading `visibility[col]`: `some b` when the key is present,
`none` for the JavaScript `undefined`. -/
def visLookup (vis : VisibilityState) (col : String) : Option Bool :=
  List.lookup col vis

/-- The keys of a visibility object (`Object.keys(visibility)`). -/
def visKeys (vis : VisibilityState) : List String :=
  vis.map Prod.fst

/-- Type `ColumnPinningState`: both sides optional, as in
`@tanstack/react-table`. -/
structure ColumnPinningState where
  left : Option (List String) := none
  right : Option (List String) := none
deriving DecidableEq, Repr

/-- Type `ColumnSizingState`: column id to width. -/
abbrev ColumnSizingState : Type := List (String × Int)

/-- The persisted unit handed to `onChange` on every mutation. -/
structure ColumnsConfig where
  columnVisibility : VisibilityState := []
  columnOrder : List String := []
  columnPinning : ColumnPinningState := {}
  columnSizing : ColumnSizingState := []

/-- Direct setter (lines 515-520): replaces only `columnVisibility`. -/
def setColumnVisibility (cfg : ColumnsConfig) (visibility : VisibilityState) :
    ColumnsConfig :=
  { cfg with columnVisibility := visibility }

/-- Direct setter (lines 522-527): replaces only `columnOrder`. -/
def setColumnOrder (cfg : ColumnsConfig) (order : List String) : ColumnsConfig :=
  { cfg with columnOrder := order }

/-- Direct setter (lines 529-534): replaces only `columnPinning`. -/
def setColumnPinning (cfg : ColumnsConfig) (pinning : ColumnPinningState) :
    ColumnsConfig :=
  { cfg with columnPinning := pinning }

/-- Lines 564-575: drops from `pinning.left` every column whose new
visibility is `false`.  `newPinning.left || []` is `getD []`. -/
def togglePinningOnVisibilityChange (columnPinning : ColumnPinningState)
    (visibility : VisibilityState) : ColumnPinningState :=
  let pinnedColumns := columnPinning.left.getD []
  let hiddenColumns := (visKeys visibility).filter
    (fun col => visLookup visibility col == some false)
  let newPinnedColumns := pinnedColumns.filter
    (fun col => !hiddenColumns.contains col)
  { columnPinning with left := some newPinnedColumns }

/-- Lines 577-587: reorders `pinning.left` to follow the new column
order (filter of the new order by current pinnedness). -/
def updatePinningOrderOnOrderChange (columnPinning : ColumnPinningState)
    (order : List String) : ColumnPinningState :=
  let pinnedColumns := columnPinning.left.getD []
  let pinnedColumnsOrder := order.filter (fun col => pinnedColumns.contains col)
  { columnPinning with left := some pinnedColumnsOrder }

/-- The truthiness test `pinning.left?.includes(a) ? 1 : 0`. -/
def pinnedFlag (pinning : ColumnPinningState) (a : String) : Bool :=
  match pinning.left with
  | some l => l.contains a
  | none => false

/-- The comparator of lines 591-595: `bPinned - aPinned`. -/
def pinCmp (pinning : ColumnPinningState) (a b : String) : Int :=
  (if pinnedFlag pinning b then 1 else 0) - (if pinnedFlag pinning a then 1 else 0)

/-- Lines 589-596: re-sorts the column order by pinnedness with the
stable array sort. -/
def updateOrderOnPinningChange (columnOrder : List String)
    (pinning : ColumnPinningState) : List String :=
  jsStableSort (fun a b => pinCmp pinning a b ≤ 0) columnOrder

/-- Reconciling updater (lines 599-606): one `onChange` with the new
visibility and the reconciled pinning together. -/
def updateColumnVisibility (cfg : ColumnsConfig) (visibility : VisibilityState) :
    ColumnsConfig :=
  let newPinning := togglePinningOnVisibilityChange cfg.columnPinning visibility
  { cfg with columnVisibility := visibility, columnPinning := newPinning }

/-- Reconciling updater (lines 608-615): one `onChange` with the new
order and the reconciled pinning together. -/
def updateColumnOrder (cfg : ColumnsConfig) (order : List String) : ColumnsConfig :=
  let newPinning := updatePinningOrderOnOrderChange cfg.columnPinning order
  { cfg with columnOrder := order, columnPinning := newPinning }

/-- Reconciling updater (lines 617-624): one `onChange` with the
re-partitioned order and the new pinning together. -/
def updateColumnPinning (cfg : ColumnsConfig) (pinning : ColumnPinningState) :
    ColumnsConfig :=
  let newOrder := updateOrderOnPinningChange cfg.columnOrder pinning
  { cfg with columnOrder := newOrder, columnPinning := pinning }

/-! ### Default column reconciliation (lines 490-512) -/

/-- The mutable state of the reconciliation loop: the working copies of
`columnOrder` and `columnPinning`. -/
structure ReconState where
  order : List String
  pinning : ColumnPinningState
deriving DecidableEq, Repr

/-- The canonical default order (line 492). -/
def defaultOrder : List String := ["thumbnail", "name", "subType", "status", "tags"]

/-- One iteration of the `defaultOrder.forEach` body (lines 494-512):
`defaultBefore` is the canonical predecessor, `columnAfter` the canonical
successor of `col`.  A missing `col` is unshifted to the front when there
is no predecessor present, otherwise spliced right after the
predecessor; and when the canonical successor is currently left-pinned
the inserted column is prepended to the pin list. -/
def reconcileStep (defaultBefore columnAfter : Option String) (col : String)
    (st : ReconState) : ReconState :=
  if st.order.contains col then st
  else
    let order' :=
      match defaultBefore with
      | none => col :: st.order
      | some prev =>
        if st.order.contains prev then
          let index := st.order.indexOf prev
          st.order.take (index + 1) ++ col :: st.order.drop (index + 1)
        else
          col :: st.order
    let pinning' :=
      match columnAfter, st.pinning.left with
      | some nxt, some l =>
        if l.contains nxt then { st.pinning with left := some (col :: l) }
        else st.pinning
      | _, _ => st.pinning
    { order := order', pinning := pinning' }

/-- The loop over the canonical list, threading the predecessor; the
successor of the head is the head of the tail. -/
def reconcileAux (defaultBefore : Option String) :
    List String → ReconState → ReconState
  | [], st => st
  | col :: rest, st =>
      reconcileAux (some col) rest (reconcileStep defaultBefore rest.head? col st)

/-- Default column reconciliation as run on configuration load. -/
def reconcile (st : ReconState) : ReconState :=
  reconcileAux none defaultOrder st

/-! ### The debounced sizing commit (lines 536-561)

`setColumnSizing` stores the in-flight value, clears any pending timer
and schedules a commit 500 ms later; the commit writes the captured
value to the durable configuration and clears the in-flight overlay.
The event loop is single-threaded, so we run a timeline: before each
call is handled, a pending timer whose deadline has passed fires. -/

/-- The quiet period of the debounce timer (line 560). -/
def quietPeriod : Nat := 500

/-- The sizing-related state of one store instance:
`internal` is `internalColumnSizing`, `pending` the scheduled timer
(absolute deadline and the captured sizing), `durable` the
`columnSizing` field of the persisted configuration, and `commits` the
trace of `onChange` commits (deadline, value) already performed. -/
structure SizingState where
  internal : Option ColumnSizingState
  pending : Option (Nat × ColumnSizingState)
  durable : ColumnSizingState
  commits : List (Nat × ColumnSizingState)
deriving Repr

/-- A fresh store over a persisted sizing value. -/
def initSizing (durable : ColumnSizingState) : SizingState :=
  { internal := none, pending := none, durable := durable, commits := [] }

/-- The timer callback (lines 551-560): write the captured sizing to the
durable configuration, record the commit, clear the overlay. -/
def fireTimer (st : SizingState) : SizingState :=
  match st.pending with
  | some (deadline, sizing) =>
      { internal := none, pending := none, durable := sizing,
        commits := st.commits ++ [(deadline, sizing)] }
  | none => st

/-- Fire the pending timer when its deadline has been reached by `now`. -/
def fireDue (now : Nat) (st : SizingState) : SizingState :=
  match st.pending with
  | some (deadline, _) => if deadline ≤ now then fireTimer st else st
  | none => st

/-- The body of `setColumnSizing` at wall-clock time `now`: replace the
in-flight value, cancel the pending timer, schedule a new one. -/
def setColumnSizing (now : Nat) (sizing : ColumnSizingState)
    (st : SizingState) : SizingState :=
  { st with internal := some sizing, pending := some (now + quietPeriod, sizing) }

/-- Run a list of timestamped `setColumnSizing` calls, firing any due
timer before each call is handled. -/
def runCalls (st : SizingState) : List (Nat × ColumnSizingState) → SizingState
  | [] => st
  | (t, v) :: rest => runCalls (setColumnSizing t v (fireDue t st)) rest

/-- Let the remaining pending timer (if any) fire: the timeline after
the last call, once the quiet period has elapsed. -/
def flushTimer (st : SizingState) : SizingState := fireTimer st

/-- Line 539: reads use the in-flight overlay when present, else the
durable value. -/
def effectiveSizing (st : SizingState) : ColumnSizingState :=
  st.internal.getD st.durable

/-- The calls follow one another within the quiet period: each call time
is at or after the previous one and strictly before the previous
deadline. -/
def withinQuietPeriod : Nat → List (Nat × ColumnSizingState) → Prop
  | _, [] => True
  | tPrev, (t, _) :: rest => tPrev ≤ t ∧ t < tPrev + quietPeriod ∧ withinQuietPeriod t rest

instance : ∀ tPrev calls, Decidable (withinQuietPeriod tPrev calls) := by
  intro tPrev calls
  induction calls generalizing tPrev with
  | nil => exact .isTrue trivial
  | cons c rest ih =>
      have := ih c.1
      unfold withinQuietPeriod
      infer_instance

/-- The last call of a nonempty timeline. -/
def lastCall (c : Nat × ColumnSizingState) :
    List (Nat × ColumnSizingState) → Nat × ColumnSizingState
  | [] => c
  | c' :: rest => lastCall c' rest

/-- The store state right after a `setColumnSizing` call at time `t`
with value `v`, while no commit has happened yet: the overlay holds `v`
and one timer is pending at `t + quietPeriod`. -/
def activeState (t : Nat) (v durable : ColumnSizingState) : SizingState :=
  { internal := some v, pending := some (t + quietPeriod, v),
    durable := durable, commits := [] }

/-! ### Helper lemmas -/

theorem lookup_mem {α β : Type} [BEq α] [LawfulBEq α] {a : α} {b : β}
    {l : List (α × β)} (h : List.lookup a l = some b) : (a, b) ∈ l := by
  induction l with
  | nil => simp [List.lookup] at h
  | cons p rest ih =>
      obtain ⟨k, v⟩ := p
      rw [List.lookup] at h
      by_cases hak : (a == k) = true
      · have ha : a = k := eq_of_beq hak
        simp only [hak] at h
        have hvb : v = b := by injection h
        subst ha
        subst hvb
        exact List.mem_cons_self _ _
      · have hak' : (a == k) = false := by
          cases hc : (a == k)
          · rfl
          · exact absurd hc hak
        simp only [hak'] at h
        exact List.mem_cons_of_mem _ (ih h)

theorem insertStable_middle {α : Type} (le : α → α → Bool) (x : α) :
    ∀ (A B : List α), (∀ a ∈ A, le x a = false) → (∀ b ∈ B, le x b = true) →
      insertStable le x (A ++ B) = A ++ x :: B := by
  intro A
  induction A with
  | nil =>
      intro B _ hB
      cases B with
      | nil => rfl
      | cons b bs =>
          simp only [List.nil_append, insertStable, hB b (List.mem_cons_self b bs)]
          simp
  | cons a as ih =>
      intro B hA hB
      simp only [List.cons_append, insertStable, hA a (List.mem_cons_self a as)]
      simp only [Bool.false_eq_true, if_false, List.cons_append, List.append_eq]
      rw [ih B (fun a' ha' => hA a' (List.mem_cons_of_mem a ha')) hB]

/-- A stable sort whose comparator only looks at a boolean key is the
stable partition: key-true elements first, each block keeping its
original relative order. -/
theorem jsStableSort_boolKey {α : Type} (p : α → Bool) (le : α → α → Bool)
    (hT : ∀ x y, p x = true → le x y = true)
    (hF : ∀ x y, p x = false → le x y = !(p y)) :
    ∀ l : List α, jsStableSort le l = l.filter p ++ l.filter (fun a => !(p a)) := by
  intro l
  induction l with
  | nil => rfl
  | cons x xs ih =>
      rw [jsStableSort, ih]
      by_cases hp : p x = true
      · have hx : ∀ z : List α, insertStable le x z = x :: z := by
          intro z
          cases z with
          | nil => rfl
          | cons h t => simp [insertStable, hT x h hp]
        rw [hx, List.filter_cons, List.filter_cons, hp]
        simp
      · have hp' : p x = false := by
          cases hpx : p x
          · rfl
          · exact absurd hpx hp
        rw [insertStable_middle le x _ _
          (fun a ha => by
            have := (List.mem_filter.mp ha).2
            rw [hF x a hp', this]
            rfl)
          (fun b hb => by
            have := (List.mem_filter.mp hb).2
            rw [hF x b hp']
            revert this
            cases p b <;> simp)]
        rw [List.filter_cons, List.filter_cons, hp']
        simp

/-- Membership in the hidden-column list computed by
`togglePinningOnVisibilityChange` is exactly having the value `false`
under lookup. -/
theorem hidden_contains (vis : VisibilityState) (id : String) :
    ((visKeys vis).filter (fun col => visLookup vis col == some false)).contains id
      = (visLookup vis id == some false) := by
  cases hl : (visLookup vis id == some false)
  · cases hc : ((visKeys vis).filter
        (fun col => visLookup vis col == some false)).contains id
    · rfl
    · exfalso
      have hmem := List.elem_iff.mp hc
      have h2 := (List.mem_filter.mp hmem).2
      rw [hl] at h2
      exact Bool.false_ne_true h2
  · apply List.elem_iff.mpr
    refine List.mem_filter.mpr ⟨?_, hl⟩
    have hsome : visLookup vis id = some false := eq_of_beq hl
    have hm : (id, false) ∈ vis := lookup_mem hsome
    exact List.mem_map.mpr ⟨(id, false), hm, rfl⟩

/-! ### Lemmas about the reconciliation loop -/

theorem reconcileStep_order_sublist (p n : Option String) (col : String)
    (st : ReconState) : st.order.Sublist (reconcileStep p n col st).order := by
  rw [reconcileStep.eq_def]
  cases hc : st.order.contains col
  · simp only [hc, Bool.false_eq_true, if_false]
    cases p with
    | none => exact List.sublist_cons_self _ _
    | some prev =>
        cases hp : st.order.contains prev
        · simp only [hp, Bool.false_eq_true, if_false]
          exact List.sublist_cons_self _ _
        · simp only [hp, if_true]
          conv_lhs =>
            rw [← List.take_append_drop (st.order.indexOf prev + 1) st.order]
          exact List.Sublist.append_left (List.sublist_cons_self _ _) _
  · simp only [hc, if_true]
    exact List.Sublist.refl _

theorem reconcileStep_order_count (p n : Option String) (col : String)
    (st : ReconState) (id : String) (hid : id ∈ st.order) :
    (reconcileStep p n col st).order.count id = st.order.count id := by
  rw [reconcileStep.eq_def]
  cases hc : st.order.contains col
  · have hne : (col == id) = false := by
      cases hbe : (col == id)
      · rfl
      · exfalso
        have hcid : col = id := eq_of_beq hbe
        subst hcid
        have hct : st.order.contains col = true := List.elem_iff.mpr hid
        rw [hc] at hct
        exact Bool.false_ne_true hct
    simp only [hc, Bool.false_eq_true, if_false]
    cases p with
    | none => simp [List.count_cons, hne]
    | some prev =>
        cases hp : st.order.contains prev
        · simp only [hp, Bool.false_eq_true, if_false]
          simp [List.count_cons, hne]
        · simp only [hp, if_true]
          simp [List.count_append, List.count_cons, hne]
          rw [← List.count_append, List.take_append_drop]
  · simp only [hc, if_true]

theorem reconcileStep_mem_col (p n : Option String) (col : String)
    (st : ReconState) : col ∈ (reconcileStep p n col st).order := by
  rw [reconcileStep.eq_def]
  cases hc : st.order.contains col
  · simp only [hc, Bool.false_eq_true, if_false]
    cases p with
    | none => exact List.mem_cons_self _ _
    | some prev =>
        cases hp : st.order.contains prev
        · simp only [hp, Bool.false_eq_true, if_false]
          exact List.mem_cons_self _ _
        · simp only [hp, if_true]
          exact List.mem_append_right _ (List.mem_cons_self _ _)
  · simp only [hc, if_true]
    exact List.elem_iff.mp hc

theorem reconcileAux_order_sublist (l : List String) :
    ∀ (p : Option String) (st : ReconState),
      st.order.Sublist (reconcileAux p l st).order := by
  induction l with
  | nil => intro p st; exact List.Sublist.refl _
  | cons col rest ih =>
      intro p st
      rw [reconcileAux]
      exact (reconcileStep_order_sublist p rest.head? col st).trans (ih _ _)

theorem reconcileAux_order_count (l : List String) :
    ∀ (p : Option String) (st : ReconState) (id : String), id ∈ st.order →
      (reconcileAux p l st).order.count id = st.order.count id := by
  induction l with
  | nil => intro p st id _; rfl
  | cons col rest ih =>
      intro p st id hid
      rw [reconcileAux]
      have hmem : id ∈ (reconcileStep p rest.head? col st).order :=
        (reconcileStep_order_sublist p rest.head? col st).subset hid
      rw [ih _ _ _ hmem, reconcileStep_order_count _ _ _ _ _ hid]

theorem reconcileAux_all_mem (l : List String) :
    ∀ (p : Option String) (st : ReconState) (c : String), c ∈ l →
      c ∈ (reconcileAux p l st).order := by
  induction l with
  | nil => intro p st c hc; exact absurd hc (List.not_mem_nil c)
  | cons col rest ih =>
      intro p st c hc
      rw [reconcileAux]
      rcases List.mem_cons.mp hc with hcol | hrest
      · subst hcol
        exact (reconcileAux_order_sublist rest _ _).subset
          (reconcileStep_mem_col p rest.head? c st)
      · exact ih _ _ _ hrest

/-! ### Lemmas about the sizing timeline -/

theorem runCalls_active (rest : List (Nat × ColumnSizingState)) :
    ∀ (t : Nat) (v durable : ColumnSizingState), withinQuietPeriod t rest →
      runCalls (activeState t v durable) rest =
        activeState (lastCall (t, v) rest).1 (lastCall (t, v) rest).2 durable := by
  induction rest with
  | nil => intro t v durable _; rfl
  | cons c rest' ih =>
      obtain ⟨t', v'⟩ := c
      intro t v durable h
      obtain ⟨h1, h2, h3⟩ := h
      rw [runCalls]
      have hfire : fireDue t' (activeState t v durable) = activeState t v durable := by
        rw [fireDue, activeState]
        simp only
        rw [if_neg]
        omega
      rw [hfire]
      have hset : setColumnSizing t' v' (activeState t v durable) =
          activeState t' v' durable := rfl
      rw [hset, ih t' v' durable h3]
      rfl

/-! ### Claim theorems -/

/-- Claim C9: under every underlying sort strategy, when the
loading flags of two rows differ the wrapped strategy puts the loading row after
the non-loading row (positive result when `rowA` is loading, negative
when `rowB` is), regardless of the underlying comparator; when the
flags are equal the wrapped strategy returns exactly the result of the
underlying comparator. -/
theorem claim9_loading_rows_last (sortFn : SortingFn)
    (rowA rowB : SortRow) (columnId : String) :
    (rowA.isLoading ≠ rowB.isLoading →
      (rowA.isLoading = true → withLoadingStateSort sortFn rowA rowB columnId = 1) ∧
      (rowB.isLoading = true → withLoadingStateSort sortFn rowA rowB columnId = -1)) ∧
    (rowA.isLoading = rowB.isLoading →
      withLoadingStateSort sortFn rowA rowB columnId = sortFn rowA rowB columnId) := by
  constructor
  · intro hne
    constructor
    · intro hA
      have hB : rowB.isLoading = false := by
        cases hb : rowB.isLoading
        · rfl
        · exfalso
          rw [hA, hb] at hne
          exact hne rfl
      simp [withLoadingStateSort, hA, hB]
    · intro hB
      have hA : rowA.isLoading = false := by
        cases ha : rowA.isLoading
        · rfl
        · exfalso
          rw [ha, hB] at hne
          exact hne rfl
      simp [withLoadingStateSort, hA, hB]
  · intro heq
    simp [withLoadingStateSort, heq]

/-- Witness for C9 at concrete rows: a loading `rowA` yields `1`, a
loading `rowB` yields `-1`, and equal flags defer to the underlying
comparator (here constantly `5`). -/
theorem claim9_witness :
    withLoadingStateSort (fun _ _ _ => 0) ⟨true, []⟩ ⟨false, []⟩ "c" = 1 ∧
    withLoadingStateSort (fun _ _ _ => 0) ⟨false, []⟩ ⟨true, []⟩ "c" = -1 ∧
    withLoadingStateSort (fun _ _ _ => (5 : Int)) ⟨false, []⟩ ⟨false, []⟩ "c" = 5 :=
  ⟨((claim9_loading_rows_last (fun _ _ _ => 0) ⟨true, []⟩ ⟨false, []⟩ "c").1
      (by decide)).1 rfl,
   ((claim9_loading_rows_last (fun _ _ _ => 0) ⟨false, []⟩ ⟨true, []⟩ "c").1
      (by decide)).2 rfl,
   (claim9_loading_rows_last (fun _ _ _ => (5 : Int)) ⟨false, []⟩ ⟨false, []⟩ "c").2 rfl⟩

/-- Claim C10: for an attribute with enum options the comparator never
returns `0`: it returns `1` or `-1`, returns `-1` whenever the two
values resolve to the same index in the option list (hence also when a
row is compared against itself), and comparing the same pair in both
argument orders then yields `-1` both times. -/
theorem claim10_enum_comparator_never_zero (datetime alphanumeric : SortingFn)
    (rowA rowB : SortRow) (columnId : String) (a : AttributeData)
    (e : List EnumOption) (he : a.enum = some e) :
    (attribSort datetime alphanumeric rowA rowB columnId (some a) = 1 ∨
      attribSort datetime alphanumeric rowA rowB columnId (some a) = -1) ∧
    attribSort datetime alphanumeric rowA rowB columnId (some a) ≠ 0 ∧
    (findIndexJS (fun o => o.value == getCellValue rowA columnId) e =
        findIndexJS (fun o => o.value == getCellValue rowB columnId) e →
      attribSort datetime alphanumeric rowA rowB columnId (some a) = -1 ∧
      attribSort datetime alphanumeric rowB rowA columnId (some a) = -1) ∧
    attribSort datetime alphanumeric rowA rowA columnId (some a) = -1 := by
  have hred : ∀ r1 r2 : SortRow,
      attribSort datetime alphanumeric r1 r2 columnId (some a) =
        if findIndexJS (fun o => o.value == getCellValue r1 columnId) e -
            findIndexJS (fun o => o.value == getCellValue r2 columnId) e < 0
        then 1 else -1 := by
    intro r1 r2
    simp only [attribSort, he]
  refine ⟨?_, ?_, ?_, ?_⟩
  · rw [hred]
    split
    · exact Or.inl rfl
    · exact Or.inr rfl
  · rw [hred]
    split
    · decide
    · decide
  · intro heq
    constructor
    · rw [hred, heq]
      simp
    · rw [hred, heq]
      simp
  · rw [hred]
    simp

/-- Witness for C10 at a concrete attribute and row: comparing a row
with itself returns `-1`, not `0`. -/
theorem claim10_witness :
    attribSort (fun _ _ _ => 0) (fun _ _ _ => 0)
      ⟨false, [("priority", CellValue.str "A")]⟩
      ⟨false, [("priority", CellValue.str "A")]⟩ "priority"
      (some { enum := some [⟨CellValue.str "A"⟩], type := "string" }) = -1 ∧
    attribSort (fun _ _ _ => 0) (fun _ _ _ => 0)
      ⟨false, [("priority", CellValue.str "A")]⟩
      ⟨false, [("priority", CellValue.str "A")]⟩ "priority"
      (some { enum := some [⟨CellValue.str "A"⟩], type := "string" }) ≠ 0 :=
  ⟨(claim10_enum_comparator_never_zero (fun _ _ _ => 0) (fun _ _ _ => 0)
      ⟨false, [("priority", CellValue.str "A")]⟩
      ⟨false, [("priority", CellValue.str "A")]⟩ "priority"
      { enum := some [⟨CellValue.str "A"⟩], type := "string" } _ rfl).2.2.2,
   (claim10_enum_comparator_never_zero (fun _ _ _ => 0) (fun _ _ _ => 0)
      ⟨false, [("priority", CellValue.str "A")]⟩
      ⟨false, [("priority", CellValue.str "A")]⟩ "priority"
      { enum := some [⟨CellValue.str "A"⟩], type := "string" } _ rfl).2.1⟩

/-- Counterexample to claim C1 as stated: with enum options
`[A, B, C]` in that declared order, the comparator returns `1` on a row
with value `A` against a row with value `B` (so the `A` row sorts
after the `B` row), and stable-sorting rows with values `C, A, B` by
the comparator yields `C, B, A`, not the claimed `A, B, C`. -/
theorem claim1_counterexample :
    attribSort (fun _ _ _ => 0) (fun _ _ _ => 0)
      ⟨false, [("priority", CellValue.str "A")]⟩
      ⟨false, [("priority", CellValue.str "B")]⟩ "priority"
      (some { enum := some [⟨CellValue.str "A"⟩, ⟨CellValue.str "B"⟩,
          ⟨CellValue.str "C"⟩], type := "string" }) = 1 ∧
    jsStableSort
      (fun x y => attribSort (fun _ _ _ => 0) (fun _ _ _ => 0) x y "priority"
        (some { enum := some [⟨CellValue.str "A"⟩, ⟨CellValue.str "B"⟩,
            ⟨CellValue.str "C"⟩], type := "string" }) ≤ 0)
      [⟨false, [("priority", CellValue.str "C")]⟩,
       ⟨false, [("priority", CellValue.str "A")]⟩,
       ⟨false, [("priority", CellValue.str "B")]⟩] ≠
      [⟨false, [("priority", CellValue.str "A")]⟩,
       ⟨false, [("priority", CellValue.str "B")]⟩,
       ⟨false, [("priority", CellValue.str "C")]⟩] ∧
    jsStableSort
      (fun x y => attribSort (fun _ _ _ => 0) (fun _ _ _ => 0) x y "priority"
        (some { enum := some [⟨CellValue.str "A"⟩, ⟨CellValue.str "B"⟩,
            ⟨CellValue.str "C"⟩], type := "string" }) ≤ 0)
      [⟨false, [("priority", CellValue.str "C")]⟩,
       ⟨false, [("priority", CellValue.str "A")]⟩,
       ⟨false, [("priority", CellValue.str "B")]⟩] =
      [⟨false, [("priority", CellValue.str "C")]⟩,
       ⟨false, [("priority", CellValue.str "B")]⟩,
       ⟨false, [("priority", CellValue.str "A")]⟩] := by
  decide

/-- Claim C1 amended: for an attribute with enum options the comparator
orders rows descending by the index of the value of each row in the declared
option order: it returns `1` (rowA after rowB) when the index for rowA
is smaller, and `-1` (rowA before rowB) when the index for rowA is
greater than or equal to the index for rowB. -/
theorem claim1_enum_sort_descending (datetime alphanumeric : SortingFn)
    (rowA rowB : SortRow) (columnId : String) (a : AttributeData)
    (e : List EnumOption) (he : a.enum = some e) :
    (findIndexJS (fun o => o.value == getCellValue rowA columnId) e <
        findIndexJS (fun o => o.value == getCellValue rowB columnId) e →
      attribSort datetime alphanumeric rowA rowB columnId (some a) = 1) ∧
    (findIndexJS (fun o => o.value == getCellValue rowB columnId) e ≤
        findIndexJS (fun o => o.value == getCellValue rowA columnId) e →
      attribSort datetime alphanumeric rowA rowB columnId (some a) = -1) := by
  have hred : attribSort datetime alphanumeric rowA rowB columnId (some a) =
      if findIndexJS (fun o => o.value == getCellValue rowA columnId) e -
          findIndexJS (fun o => o.value == getCellValue rowB columnId) e < 0
      then 1 else -1 := by
    simp only [attribSort, he]
  constructor
  · intro hlt
    rw [hred, if_pos (by omega)]
  · intro hle
    rw [hred, if_neg (by omega)]

/-- Witness for the amended C1 at enum `[A, B, C]`: a row with value
`A` against a row with value `B` compares as `1` (after), and the
reverse pair compares as `-1` (before). -/
theorem claim1_witness :
    attribSort (fun _ _ _ => 0) (fun _ _ _ => 0)
      ⟨false, [("priority", CellValue.str "A")]⟩
      ⟨false, [("priority", CellValue.str "B")]⟩ "priority"
      (some { enum := some [⟨CellValue.str "A"⟩, ⟨CellValue.str "B"⟩,
          ⟨CellValue.str "C"⟩], type := "string" }) = 1 ∧
    attribSort (fun _ _ _ => 0) (fun _ _ _ => 0)
      ⟨false, [("priority", CellValue.str "B")]⟩
      ⟨false, [("priority", CellValue.str "A")]⟩ "priority"
      (some { enum := some [⟨CellValue.str "A"⟩, ⟨CellValue.str "B"⟩,
          ⟨CellValue.str "C"⟩], type := "string" }) = -1 :=
  ⟨(claim1_enum_sort_descending (fun _ _ _ => 0) (fun _ _ _ => 0)
      ⟨false, [("priority", CellValue.str "A")]⟩
      ⟨false, [("priority", CellValue.str "B")]⟩ "priority"
      { enum := some [⟨CellValue.str "A"⟩, ⟨CellValue.str "B"⟩,
          ⟨CellValue.str "C"⟩], type := "string" } _ rfl).1 (by decide),
   (claim1_enum_sort_descending (fun _ _ _ => 0) (fun _ _ _ => 0)
      ⟨false, [("priority", CellValue.str "B")]⟩
      ⟨false, [("priority", CellValue.str "A")]⟩ "priority"
      { enum := some [⟨CellValue.str "A"⟩, ⟨CellValue.str "B"⟩,
          ⟨CellValue.str "C"⟩], type := "string" } _ rfl).2 (by decide)⟩

/-- Counterexample to claim C2 as stated: the direct setter
`setColumnVisibility` performs no reconciliation, so starting from
`pinning.left = [x]` and setting `visibility = {x: false}` hands the
change callback a configuration in which the hidden column `x` is still
pinned. -/
theorem claim2_counterexample :
    ¬ (∀ id ∈ (setColumnVisibility
        { columnVisibility := [], columnOrder := ["x"],
          columnPinning := { left := some ["x"], right := none },
          columnSizing := [] }
        [("x", false)]).columnPinning.left.getD [],
      visLookup (setColumnVisibility
        { columnVisibility := [], columnOrder := ["x"],
          columnPinning := { left := some ["x"], right := none },
          columnSizing := [] }
        [("x", false)]).columnVisibility id ≠ some false) := by
  decide

/-- Claim C2 amended: the reconciling updater `updateColumnVisibility`
re-establishes the invariant: in the configuration it hands to the
change callback, every id in `pinning.left` has a visibility value
other than `false`; the direct setters do not enforce this. -/
theorem claim2_pinned_never_hidden_after_update (cfg : ColumnsConfig)
    (visibility : VisibilityState) (id : String)
    (h : id ∈ (updateColumnVisibility cfg visibility).columnPinning.left.getD []) :
    visLookup (updateColumnVisibility cfg visibility).columnVisibility id ≠
      some false := by
  intro hfalse
  have h' : id ∈ (cfg.columnPinning.left.getD []).filter
      (fun col => !((visKeys visibility).filter
        (fun c => visLookup visibility c == some false)).contains col) := by
    simpa [updateColumnVisibility, togglePinningOnVisibilityChange] using h
  have h2 := (List.mem_filter.mp h').2
  rw [hidden_contains] at h2
  have hb : (visLookup visibility id == some false) = true := by
    have hv : visLookup visibility id = some false := hfalse
    rw [hv]
    rfl
  rw [hb] at h2
  exact Bool.false_ne_true (by simpa using h2.symm)

/-- Witness for the amended C2: hiding `x` while `[x, y]` are pinned
leaves `y` pinned and `y` is not hidden in the emitted configuration. -/
theorem claim2_witness :
    visLookup (updateColumnVisibility
      { columnVisibility := [], columnOrder := ["x", "y"],
        columnPinning := { left := some ["x", "y"], right := none },
        columnSizing := [] }
      [("x", false)]).columnVisibility "y" ≠ some false :=
  claim2_pinned_never_hidden_after_update
    { columnVisibility := [], columnOrder := ["x", "y"],
      columnPinning := { left := some ["x", "y"], right := none },
      columnSizing := [] }
    [("x", false)] "y" (by decide)

/-- Claim C3: `updateColumnPinning` recomputes the order as the stable
partition of the current order by membership in the new `pinning.left`
(pinned ids first, relative order preserved in both blocks), persists
the new pinning in the same configuration, leaves the other fields
untouched, and on `order = [a,b,c,d]` with `left = [c]` yields
`[c,a,b,d]`. -/
theorem claim3_updatePinning_stable_partition (cfg : ColumnsConfig)
    (pinning : ColumnPinningState) :
    (updateColumnPinning cfg pinning).columnOrder =
        cfg.columnOrder.filter (fun c => pinnedFlag pinning c) ++
          cfg.columnOrder.filter (fun c => !(pinnedFlag pinning c)) ∧
    (updateColumnPinning cfg pinning).columnPinning = pinning ∧
    (updateColumnPinning cfg pinning).columnVisibility = cfg.columnVisibility ∧
    (updateColumnPinning cfg pinning).columnSizing = cfg.columnSizing ∧
    (updateColumnPinning
      { columnVisibility := [], columnOrder := ["a", "b", "c", "d"],
        columnPinning := { left := none, right := none }, columnSizing := [] }
      { left := some ["c"], right := none }).columnOrder = ["c", "a", "b", "d"] := by
  refine ⟨?_, rfl, rfl, rfl, by decide⟩
  show updateOrderOnPinningChange cfg.columnOrder pinning = _
  rw [updateOrderOnPinningChange]
  apply jsStableSort_boolKey (pinnedFlag pinning)
  · intro x y hx
    simp [pinCmp, hx]
    cases pinnedFlag pinning y <;> simp
  · intro x y hx
    simp [pinCmp, hx]
    cases pinnedFlag pinning y <;> simp

/-- Claim C4: `updateColumnOrder` recomputes `pinning.left` as the
subsequence of the new order consisting of the currently pinned ids
(characterised also by membership: an id ends up pinned iff it is in
the new order and was pinned), persists the new order in the same
configuration, and on `order = [a,b,c,d]`, `left = [b,d]`,
`updateColumnOrder [d,c,b,a]` yields `left = [d,b]`. -/
theorem claim4_updateOrder_reorders_pins (cfg : ColumnsConfig)
    (order : List String) :
    (updateColumnOrder cfg order).columnPinning.left =
        some (order.filter
          (fun col => (cfg.columnPinning.left.getD []).contains col)) ∧
    (∀ id, id ∈ (updateColumnOrder cfg order).columnPinning.left.getD [] ↔
        id ∈ order ∧ id ∈ cfg.columnPinning.left.getD []) ∧
    (updateColumnOrder cfg order).columnOrder = order ∧
    (updateColumnOrder cfg order).columnPinning.right = cfg.columnPinning.right ∧
    (updateColumnOrder
      { columnVisibility := [], columnOrder := ["a", "b", "c", "d"],
        columnPinning := { left := some ["b", "d"], right := none },
        columnSizing := [] }
      ["d", "c", "b", "a"]).columnPinning.left = some ["d", "b"] := by
  refine ⟨rfl, ?_, rfl, rfl, by decide⟩
  intro id
  constructor
  · intro h
    have h' : id ∈ order.filter
        (fun col => (cfg.columnPinning.left.getD []).contains col) := by
      simpa [updateColumnOrder, updatePinningOrderOnOrderChange] using h
    obtain ⟨h1, h2⟩ := List.mem_filter.mp h'
    exact ⟨h1, List.elem_iff.mp h2⟩
  · intro ⟨h1, h2⟩
    have h' : id ∈ order.filter
        (fun col => (cfg.columnPinning.left.getD []).contains col) :=
      List.mem_filter.mpr ⟨h1, List.elem_iff.mpr h2⟩
    simpa [updateColumnOrder, updatePinningOrderOnOrderChange] using h'

/-- Claim C5: `updateColumnVisibility` recomputes `pinning.left` by
keeping, in unchanged relative order, exactly the currently pinned ids
whose entry in the new visibility is not `false` (absent or `true`
entries stay pinned), persists visibility and pinning in the same
configuration, and on `left = [x, y]`, `updateColumnVisibility
{x: false}` yields `left = [y]`. -/
theorem claim5_updateVisibility_unpins_hidden (cfg : ColumnsConfig)
    (visibility : VisibilityState) :
    (updateColumnVisibility cfg visibility).columnPinning.left =
        some ((cfg.columnPinning.left.getD []).filter
          (fun id => !(visLookup visibility id == some false))) ∧
    (updateColumnVisibility cfg visibility).columnVisibility = visibility ∧
    (updateColumnVisibility cfg visibility).columnPinning.right =
      cfg.columnPinning.right ∧
    (updateColumnVisibility cfg visibility).columnOrder = cfg.columnOrder ∧
    (updateColumnVisibility
      { columnVisibility := [], columnOrder := ["x", "y"],
        columnPinning := { left := some ["x", "y"], right := none },
        columnSizing := [] }
      [("x", false)]).columnPinning.left = some ["y"] := by
  refine ⟨?_, rfl, rfl, rfl, by decide⟩
  show (togglePinningOnVisibilityChange cfg.columnPinning visibility).left = _
  rw [togglePinningOnVisibilityChange]
  simp only
  congr 1
  apply List.filter_congr
  intro x _
  rw [hidden_contains]

/-- Claim C6: default-column reconciliation yields an order containing
all five canonical ids; every id of the persisted order is neither
dropped nor duplicated (its multiplicity is unchanged) and the persisted
order survives as a subsequence (relative order kept); and each single
insertion of a missing canonical id goes to the very front when there is
no canonical predecessor or the predecessor is absent from the current
order, and otherwise immediately after the current position of
the predecessor. -/
theorem claim6_reconcile_defaults (init : ReconState) :
    ((∀ c ∈ defaultOrder, c ∈ (reconcile init).order) ∧
     init.order.Sublist (reconcile init).order ∧
     (∀ id ∈ init.order,
        (reconcile init).order.count id = init.order.count id)) ∧
    (∀ (prevOpt nextOpt : Option String) (col : String) (st : ReconState),
      col ∉ st.order →
        ((prevOpt = none →
            (reconcileStep prevOpt nextOpt col st).order = col :: st.order) ∧
         (∀ prev, prevOpt = some prev → prev ∉ st.order →
            (reconcileStep prevOpt nextOpt col st).order = col :: st.order) ∧
         (∀ prev, prevOpt = some prev → prev ∈ st.order →
            (reconcileStep prevOpt nextOpt col st).order =
              st.order.take (st.order.indexOf prev + 1) ++
                col :: st.order.drop (st.order.indexOf prev + 1)))) := by
  constructor
  · refine ⟨?_, ?_, ?_⟩
    · intro c hc
      exact reconcileAux_all_mem defaultOrder none init c hc
    · exact reconcileAux_order_sublist defaultOrder none init
    · intro id hid
      exact reconcileAux_order_count defaultOrder none init id hid
  · intro prevOpt nextOpt col st hcol
    have hc : st.order.contains col = false := by
      cases hcc : st.order.contains col
      · rfl
      · exact absurd (List.elem_iff.mp hcc) hcol
    refine ⟨?_, ?_, ?_⟩
    · intro hp
      subst hp
      rw [reconcileStep.eq_def]
      simp only [hc, Bool.false_eq_true, if_false]
    · intro prev hp hprev
      subst hp
      have hpc : st.order.contains prev = false := by
        cases hpp : st.order.contains prev
        · rfl
        · exact absurd (List.elem_iff.mp hpp) hprev
      rw [reconcileStep.eq_def]
      simp only [hc, hpc, Bool.false_eq_true, if_false]
    · intro prev hp hprev
      subst hp
      have hpc : st.order.contains prev = true := List.elem_iff.mpr hprev
      rw [reconcileStep.eq_def]
      simp only [hc, hpc, Bool.false_eq_true, if_false, if_true]

/-- Witness for C6: reconciling a legacy order `[custom1]` produces an
order containing `thumbnail`, and inserting `subType` after the present
predecessor `name` splices it right after `name`. -/
theorem claim6_witness :
    "thumbnail" ∈ (reconcile
      { order := ["custom1"],
        pinning := { left := none, right := none } }).order ∧
    (reconcileStep (some "name") (some "status") "subType"
      { order := ["name", "custom1"],
        pinning := { left := none, right := none } }).order =
      ["name", "subType", "custom1"] :=
  ⟨(claim6_reconcile_defaults
      { order := ["custom1"], pinning := { left := none, right := none } }).1.1
      "thumbnail" (by decide),
   Eq.trans
     (((claim6_reconcile_defaults
         { order := ["custom1"], pinning := { left := none, right := none } }).2
       (some "name") (some "status") "subType"
       { order := ["name", "custom1"],
         pinning := { left := none, right := none } } (by decide)).2.2
       "name" rfl (by decide))
     (by decide)⟩

/-- Counterexample to claim C7 as stated: starting from an empty
persisted order with `name` left-pinned, every insertion happens while
its canonical successor is absent from the order, so under the claim
the pin list would stay `[name]`; the code nonetheless pins the
inserted `thumbnail` because it only checks that the successor is in
the pin list, yielding `[thumbnail, name]`. -/
theorem claim7_counterexample :
    (reconcile
      { order := [],
        pinning := { left := some ["name"], right := none } }).pinning.left =
      some ["thumbnail", "name"] ∧
    (reconcile
      { order := [],
        pinning := { left := some ["name"], right := none } }).pinning.left ≠
      some ["name"] := by
  decide

/-- Claim C7 amended: when a missing canonical id is inserted, it is
prepended to the pin list exactly when it has a canonical successor and
that successor is currently in the left pin list, regardless of whether
the successor is present in the order; with no canonical successor, an
undefined pin list, or a successor that is not pinned, the pinning is
unchanged for that insertion. -/
theorem claim7_pin_follows_pinned_successor (prevOpt nextOpt : Option String)
    (col : String) (st : ReconState) (hcol : col ∉ st.order) :
    (∀ nxt l, nextOpt = some nxt → st.pinning.left = some l →
        l.contains nxt = true →
      (reconcileStep prevOpt nextOpt col st).pinning =
        { st.pinning with left := some (col :: l) }) ∧
    (∀ nxt l, nextOpt = some nxt → st.pinning.left = some l →
        l.contains nxt = false →
      (reconcileStep prevOpt nextOpt col st).pinning = st.pinning) ∧
    (nextOpt = none →
      (reconcileStep prevOpt nextOpt col st).pinning = st.pinning) ∧
    (st.pinning.left = none →
      (reconcileStep prevOpt nextOpt col st).pinning = st.pinning) := by
  have hc : st.order.contains col = false := by
    cases hcc : st.order.contains col
    · rfl
    · exact absurd (List.elem_iff.mp hcc) hcol
  refine ⟨?_, ?_, ?_, ?_⟩
  · intro nxt l hn hl hmem
    rw [reconcileStep.eq_def]
    simp only [hc, Bool.false_eq_true, if_false, hn, hl, hmem, if_true]
  · intro nxt l hn hl hmem
    rw [reconcileStep.eq_def]
    simp only [hc, Bool.false_eq_true, if_false, hn, hl, hmem, if_false]
  · intro hn
    rw [reconcileStep.eq_def]
    subst hn
    simp only [hc, Bool.false_eq_true, if_false]
  · intro hl
    rw [reconcileStep.eq_def]
    cases nextOpt with
    | none => simp only [hc, Bool.false_eq_true, if_false]
    | some nxt => simp only [hc, Bool.false_eq_true, if_false, hl]

/-- Witness for the amended C7: inserting `subType` while its canonical
successor `status` is pinned (though absent from the order) prepends
`subType` to the pin list. -/
theorem claim7_witness :
    (reconcileStep (some "name") (some "status") "subType"
      { order := ["name"],
        pinning := { left := some ["status"], right := none } }).pinning =
      { left := some ["subType", "status"], right := none } :=
  ((claim7_pin_follows_pinned_successor (some "name") (some "status") "subType"
      { order := ["name"],
        pinning := { left := some ["status"], right := none } }
      (by decide)).1 "status" ["status"] rfl rfl (by decide))

/-- Claim C8: for a nonempty burst of `setColumnSizing` calls in which
every call follows the previous one within the quiet period, no commit
is emitted while the burst runs; once the quiet period after the last
call elapses, exactly one commit is emitted, at the deadline of the
last call and carrying the value of the last call; the durable value becomes that
value, the in-flight overlay is cleared, and reads fall back to the
durable value. -/
theorem claim8_sizing_debounce (durable : ColumnSizingState) (t0 : Nat)
    (v0 : ColumnSizingState) (rest : List (Nat × ColumnSizingState))
    (h : withinQuietPeriod t0 rest) :
    (runCalls (initSizing durable) ((t0, v0) :: rest)).commits = [] ∧
    (flushTimer (runCalls (initSizing durable) ((t0, v0) :: rest))).commits =
      [((lastCall (t0, v0) rest).1 + quietPeriod, (lastCall (t0, v0) rest).2)] ∧
    (flushTimer (runCalls (initSizing durable) ((t0, v0) :: rest))).internal =
      none ∧
    (flushTimer (runCalls (initSizing durable) ((t0, v0) :: rest))).durable =
      (lastCall (t0, v0) rest).2 ∧
    effectiveSizing (flushTimer (runCalls (initSizing durable) ((t0, v0) :: rest)))
      = (lastCall (t0, v0) rest).2 := by
  have hrun : runCalls (initSizing durable) ((t0, v0) :: rest) =
      activeState (lastCall (t0, v0) rest).1 (lastCall (t0, v0) rest).2 durable := by
    rw [runCalls]
    have hset : setColumnSizing t0 v0 (fireDue t0 (initSizing durable)) =
        activeState t0 v0 durable := rfl
    rw [hset]
    exact runCalls_active rest t0 v0 durable h
  rw [hrun]
  exact ⟨rfl, rfl, rfl, rfl, rfl⟩

/-- Witness for C8: `setSizing({a:100})` at time 0 then
`setSizing({a:120})` at time 200 commit nothing during the burst and
exactly once after it, with `{a:120}` at deadline 700; the overlay ends
cleared and reads yield `{a:120}`. -/
theorem claim8_witness :
    (runCalls (initSizing []) [(0, [("a", 100)]), (200, [("a", 120)])]).commits
      = [] ∧
    (flushTimer (runCalls (initSizing [])
      [(0, [("a", 100)]), (200, [("a", 120)])])).commits =
      [(700, [("a", 120)])] ∧
    (flushTimer (runCalls (initSizing [])
      [(0, [("a", 100)]), (200, [("a", 120)])])).internal = none ∧
    effectiveSizing (flushTimer (runCalls (initSizing [])
      [(0, [("a", 100)]), (200, [("a", 120)])])) = [("a", 120)] := by
  have h := claim8_sizing_debounce [] 0 [("a", 100)] [(200, [("a", 120)])]
    ⟨by decide, by decide, trivial⟩
  exact ⟨h.1, h.2.1, h.2.2.1, h.2.2.2.2⟩

end TreeTable
